import Mathlib

/-!
Verification model of the weekly-board application (src/app.py).

The application reads a Google-Sheets worksheet into a pandas DataFrame
(`load_data`), detects the week column by a regular expression, numbers the
rows with their spreadsheet positions, sorts them by parsed start date
descending, and writes edits back cell by cell.  Everything the claims need
is shallowly embedded here:

  * Python strings are Lean `String`s; the handful of `str` methods the code
    uses (`strip`, `split`, `startswith`, single-character `replace`) are
    re-implemented on `List Char` so that they compute by structural
    recursion (kernel-reducible).  Whitespace is modelled as the ASCII
    whitespace characters; the code never relies on exotic Unicode spaces.
  * `datetime` values are `Date` records (year, month, day); the code only
    ever builds midnight datetimes, so the time-of-day components are
    dropped.  `datetime.min` is the sentinel ⟨1, 1, 1⟩.
  * `datetime.strptime(s, "%Y.%m.%d")` is `parseYMD`: Python's `_strptime`
    compiles the format into the regex `(\d{4})\.(1[0-2]|0[1-9]|[1-9])\.`
    `(3[01]|[12]\d|0[1-9]|[1-9])`, requires the whole string to be consumed,
    and then validates the day against the month length (with leap years)
    when the `datetime` is constructed.  `parseYMD` follows that exactly.
  * the pandas DataFrame made by `load_data` is a `Table`: the string
    columns (`header`, one `cells` list per row, kept aligned) plus the
    synthetic integer column `_sheet_row` carried as the `sheetRow` field of
    each row.  The `_sheet_row` and `_start_date` columns start with an
    underscore, so they are never department columns and never the `WEEK`
    column; `_start_date` is only the sort key and is recomputed, not
    stored.  Column names are assumed distinct as the spec's data-model
    invariant states (pandas raises on duplicate labels in this code path).
  * a gspread worksheet is a `Sheet` (list of rows of strings, 1-based
    coordinates in the API calls); `update_cell` and `insert_row` are
    modelled at the documented interface of the client, and the malformed
    `insert_cols` call on the new-week path is modelled as the API error it
    raises (see `add_new_week`).
-/

namespace WeeklyBoard

/-! ## Python string primitives -/

/-- ASCII whitespace as stripped by Python's `str.strip` and matched by the
regex class `\s` (space, tab, newline, carriage return, vertical tab, form
feed). -/
def isSpaceB (c : Char) : Bool :=
  c = ' ' || c = '\t' || c = '\n' || c = '\r' || c = '\x0b' || c = '\x0c'

/-- Model of Python `str.strip()` on the character list: drop whitespace from
both ends. -/
def pyStripL (l : List Char) : List Char :=
  ((l.dropWhile isSpaceB).reverse.dropWhile isSpaceB).reverse

/-- Model of Python `str.strip()`. -/
def pyStrip (s : String) : String := ⟨pyStripL s.data⟩

/-- Model of Python `str.split(sep)` for a one-character separator: split at
every occurrence, producing one more part than there are separators. -/
def splitOnCharL (c : Char) : List Char → List (List Char)
  | [] => [[]]
  | x :: xs =>
    if x = c then [] :: splitOnCharL c xs
    else
      match splitOnCharL c xs with
      | [] => [[x]]
      | p :: ps => (x :: p) :: ps

/-- Model of Python `str.split(sep)` for a one-character separator. -/
def pySplit (c : Char) (s : String) : List String :=
  (splitOnCharL c s.data).map (fun l => ⟨l⟩)

/-- Model of Python `str.startswith(p)` on character lists. -/
def startsWithL : List Char → List Char → Bool
  | [], _ => true
  | _ :: _, [] => false
  | p :: ps, x :: xs => p = x && startsWithL ps xs

/-- Model of Python `str.startswith(p)`. -/
def pyStartsWith (p s : String) : Bool := startsWithL p.data s.data

/-- Python `str.replace(old, new)` for a one-character pattern: replace every
occurrence (this is exactly what `str.replace` does when the pattern is a
single character). -/
def replaceCharL (c : Char) (r : List Char) : List Char → List Char
  | [] => []
  | x :: xs => if x = c then r ++ replaceCharL c r xs else x :: replaceCharL c r xs

/-! ## Dates -/

/-- A calendar date; the code only ever uses midnight `datetime`s, so the
time components are dropped. `datetime.min` is ⟨1, 1, 1⟩. -/
structure Date where
  year : Nat
  month : Nat
  day : Nat
deriving DecidableEq, Repr

/-- Comparison of dates, as Python compares `datetime` objects (calendar
order; lexicographic on (year, month, day) for valid dates). -/
def Date.leB (a b : Date) : Bool :=
  a.year < b.year ||
    (a.year = b.year &&
      (a.month < b.month || (a.month = b.month && a.day ≤ b.day)))

/-- Gregorian leap year, as `datetime` validates day-of-month. -/
def isLeap (y : Nat) : Bool :=
  y % 4 = 0 && (y % 100 ≠ 0 || y % 400 = 0)

/-- Length of a month, as `datetime` validates day-of-month. Only called
with months 1..12. -/
def daysInMonth (y m : Nat) : Nat :=
  if m = 2 then (if isLeap y then 29 else 28)
  else if m = 4 || m = 6 || m = 9 || m = 11 then 30
  else 31

/-- The digit value of an ASCII digit character (code 48 is '0'). -/
def dval (c : Char) : Nat := c.toNat - 48

/-- Character-class test by ASCII code range: `inRange 48 57` is the regex
`\d` (ASCII digits, as every date in the data is written), `inRange 49 57`
is `[1-9]`, `inRange 48 50` is `[0-2]`. -/
def inRange (lo hi : Nat) (c : Char) : Bool := lo ≤ c.toNat && c.toNat ≤ hi

/-- Month token of `_strptime`'s regex `(1[0-2]|0[1-9]|[1-9])`: one or two
digits, value 1..12, longest alternative first.  (Backtracking never changes
the outcome here: a two-digit alternative is only taken when both characters
are digits, and the one-digit fallback would then meet a digit where the
format's literal dot is required.) Returns the month and the rest. -/
def parseMonth : List Char → Option (Nat × List Char)
  | [] => none
  | [c1] => if inRange 49 57 c1 then some (dval c1, []) else none
  | c1 :: c2 :: rest =>
    if c1 = '1' && inRange 48 50 c2 then some (10 + dval c2, rest)
    else if c1 = '0' && inRange 49 57 c2 then some (dval c2, rest)
    else if inRange 49 57 c1 then some (dval c1, c2 :: rest)
    else none

/-- Day token of `_strptime`'s regex `(3[01]|[12]\d|0[1-9]|[1-9])`, which is
the last token of the format: after it `_strptime` raises unless the whole
string was consumed, so the day must reach the end of the input. -/
def parseDay : List Char → Option Nat
  | [] => none
  | [c1] => if inRange 49 57 c1 then some (dval c1) else none
  | c1 :: c2 :: rest =>
    if c1 = '3' && inRange 48 49 c2 then
      if rest = [] then some (30 + dval c2) else none
    else if (c1 = '1' || c1 = '2') && inRange 48 57 c2 then
      if rest = [] then some ((dval c1) * 10 + dval c2) else none
    else if c1 = '0' && inRange 49 57 c2 then
      if rest = [] then some (dval c2) else none
    else none

/-- Model of `datetime.strptime(s, "%Y.%m.%d")` on the character list: four
digits of year, a literal dot, the month token, a literal dot, the day token
reaching the end; then the `datetime` constructor requires year ≥ 1 (a
four-digit year is at most 9999 already) and the day to fit the month. -/
def parseYMDL : List Char → Option Date
  | c1 :: c2 :: c3 :: c4 :: '.' :: rest =>
    if inRange 48 57 c1 && inRange 48 57 c2 && inRange 48 57 c3 && inRange 48 57 c4 then
      let y := ((dval c1 * 10 + dval c2) * 10 + dval c3) * 10 + dval c4
      match parseMonth rest with
      | some (m, rest2) =>
        match rest2 with
        | '.' :: rest3 =>
          match parseDay rest3 with
          | some d =>
            if 1 ≤ y && d ≤ daysInMonth y m then some ⟨y, m, d⟩ else none
          | none => none
        | _ => none
      | none => none
    else none
  | _ => none

/-- Model of `datetime.strptime(s, "%Y.%m.%d")`, `None` for `ValueError`. -/
def parseYMD (s : String) : Option Date := parseYMDL s.data

/-- Zero-padded decimal rendering, for `strftime`'s `%Y`/`%m`/`%d`. -/
def padZeros (k n : Nat) : String :=
  ⟨List.replicate (k - (Nat.repr n).length) '0' ++ (Nat.repr n).data⟩

/-- Model of `f"{d:%Y.%m.%d}"`. -/
def formatYMD (d : Date) : String :=
  padZeros 4 d.year ++ "." ++ padZeros 2 d.month ++ "." ++ padZeros 2 d.day

/-- Model of `d + timedelta(days=1)`: the next calendar day. -/
def nextDay (d : Date) : Date :=
  if d.day < daysInMonth d.year d.month then ⟨d.year, d.month, d.day + 1⟩
  else if d.month < 12 then ⟨d.year, d.month + 1, 1⟩
  else ⟨d.year + 1, 1, 1⟩

/-- Model of `d + timedelta(days=n)` for n ≥ 0. -/
def addDays : Nat → Date → Date
  | 0, d => d
  | n + 1, d => addDays n (nextDay d)

/-- A date `datetime` can hold: months 1..12, day within the month, year at
least 1 (the code never reaches year 10000, where `datetime` overflows). -/
def ValidDate (d : Date) : Prop :=
  1 ≤ d.year ∧ 1 ≤ d.month ∧ d.month ≤ 12 ∧ 1 ≤ d.day ∧ d.day ≤ daysInMonth d.year d.month

instance (d : Date) : Decidable (ValidDate d) := by
  unfold ValidDate; infer_instance

/-- Leap years in 1..n, for counting days across year boundaries. -/
def leapCount (n : Nat) : Nat := n / 4 - n / 100 + n / 400

/-- One when the year is leap, zero otherwise. -/
def leapBit (y : Nat) : Nat := if isLeap y then 1 else 0

/-- Days in year `y` before month `m` (months 1..m-1). -/
def daysBeforeMonth (y : Nat) : Nat → Nat
  | 0 => 0
  | 1 => 0
  | m + 2 => daysBeforeMonth y (m + 1) + daysInMonth y (m + 1)

/-- Rank of a date: the number of days from a fixed origin, so that adding a
day to a valid date adds one. -/
def dayNumber (d : Date) : Nat :=
  365 * (d.year - 1) + leapCount (d.year - 1) + daysBeforeMonth d.year d.month + d.day

/-! ## Week-range parsing (src/app.py lines 64, 78-88, 93-100) -/

/-- Full match of the week-column pattern
`\d{4}\.\d{2}\.\d{2}\s*~\s*\d{4}\.\d{2}\.\d{2}` (src/app.py line 64): here
one side, exactly `\d{4}\.\d{2}\.\d{2}`, returning the rest on success. -/
def weekDatePart : List Char → Option (List Char)
  | a :: b :: c :: d :: '.' :: e :: f :: '.' :: g :: h :: rest =>
    if inRange 48 57 a && inRange 48 57 b && inRange 48 57 c && inRange 48 57 d &&
        inRange 48 57 e && inRange 48 57 f && inRange 48 57 g && inRange 48 57 h then some rest
    else none
  | _ => none

/-- Full match of the week-column pattern on a character list. -/
def isWeekLabelL (l : List Char) : Bool :=
  match weekDatePart l with
  | some rest =>
    match (rest.dropWhile isSpaceB) with
    | '~' :: rest2 =>
      match weekDatePart (rest2.dropWhile isSpaceB) with
      | some [] => true
      | _ => false
    | _ => false
  | none => false

/-- `bool(pattern.fullmatch(x.strip()))` for the week pattern
(src/app.py line 68). -/
def isWeekLabel (s : String) : Bool := isWeekLabelL (pyStrip s).data

/-- `parse_week_range` (src/app.py lines 93-100): split on `~` (exactly two
parts, else the tuple unpacking raises), strip each side, parse each side
with `%Y.%m.%d`; `(None, None)` on any failure is modelled as `none`. -/
def parse_week_range (s : String) : Option (Date × Date) :=
  match pySplit '~' s with
  | [a, b] =>
    match parseYMD (pyStrip a), parseYMD (pyStrip b) with
    | some d1, some d2 => some (d1, d2)
    | _, _ => none
  | _ => none

/-- The `try` body of `parse_start_date` (src/app.py lines 78-83): first
part before `~`, stripped, parsed with `%Y.%m.%d`. -/
def parseStartDateOpt (s : String) : Option Date :=
  parseYMD (pyStrip ((pySplit '~' s).headD ""))

/-- `parse_start_date` (src/app.py lines 78-83): the parsed start date, or
`datetime.min` = ⟨1, 1, 1⟩ when anything raises. -/
def parse_start_date (s : String) : Date :=
  (parseStartDateOpt s).getD ⟨1, 1, 1⟩

/-- The new-week computation of `main` (src/app.py lines 288-294):
`new_start = last_end + timedelta(days=1)`,
`new_end = new_start + timedelta(days=7*weeks_to_add - 1)`,
`f"{new_start:%Y.%m.%d}~{new_end:%Y.%m.%d}"`.  `weeks_to_add` is 1 or 2 at
every call site, so the Nat subtraction in the day count is exact. -/
def next_week_range (lastEnd : Date) (weeksToAdd : Nat) : String :=
  let newStart := nextDay lastEnd
  let newEnd := addDays (7 * weeksToAdd - 1) newStart
  formatYMD newStart ++ "~" ++ formatYMD newEnd

/-! ## The loaded table (src/app.py lines 28-91) -/

/-- The raw grid `ws.get_all_values()` returns: rows of cell strings. -/
abbrev Grid := List (List String)

/-- One DataFrame row: the string cells (aligned with the table header) and
the synthetic `_sheet_row` column (`df.index + 2`, src/app.py line 62). -/
structure TRow where
  cells : List String
  sheetRow : Nat
deriving DecidableEq, Repr

/-- The DataFrame `load_data` builds: the string column names in order and
the rows.  The synthetic `_sheet_row` column lives in `TRow.sheetRow`; the
`_start_date` column is only the sort key and is recomputed where needed
(both names start with an underscore, so neither is ever a department
column, and neither is the string `"WEEK"`). -/
structure Table where
  header : List String
  rows : List TRow
deriving DecidableEq, Repr

/-- Header resolution (src/app.py lines 39-44): strip each header cell and
replace a blank one by `Unnamed_<position+1>`. -/
def fillHeader (raw : List String) : List String :=
  raw.enum.map (fun p => (fun h => if h = "" then "Unnamed_" ++ Nat.repr (p.1 + 1) else h) (pyStrip p.2))

/-- Row normalisation (src/app.py lines 48-54): right-pad a short row with
empty strings, truncate a long one to the header length. -/
def normalizeRow (n : Nat) (r : List String) : List String :=
  if r.length < n then r ++ List.replicate (n - r.length) ""
  else if n < r.length then r.take n else r

/-- Column pruning test (src/app.py lines 58-60): a column is dropped when
its name starts with `Unnamed_` and `replace("", NA).isna().all()` holds,
i.e. every cell of the column is the empty string. -/
def droppedCol (header : List String) (rows : List (List String)) (j : Nat) : Bool :=
  startsWithL "Unnamed_".data (header.getD j "").data && rows.all (fun r => r.getD j "" = "")

/-- The 0-based positions of the columns the pruning keeps, in order. -/
def keptIdxs (header : List String) (rows : List (List String)) : List Nat :=
  (List.range header.length).filter (fun j => !droppedCol header rows j)

/-- Restriction of a row to the given column positions. -/
def selectIdxs (idxs : List Nat) (r : List String) : List String :=
  idxs.map (fun j => r.getD j "")

/-- The filled header of the grid (row 0). -/
def headerOf (g : Grid) : List String := fillHeader (g.headD [])

/-- The normalised body rows of the grid (rows 1..). -/
def normRows (g : Grid) : List (List String) :=
  g.tail.map (normalizeRow (headerOf g).length)

/-- The kept column positions of the grid. -/
def keptOf (g : Grid) : List Nat := keptIdxs (headerOf g) (normRows g)

/-- The header after pruning. -/
def prunedHeader (g : Grid) : List String := selectIdxs (keptOf g) (headerOf g)

/-- The body rows after pruning. -/
def prunedRows (g : Grid) : List (List String) :=
  (normRows g).map (selectIdxs (keptOf g))

/-- The body rows with their sheet row numbers: `df["_sheet_row"] = df.index
+ 2` (src/app.py line 62) gives the row at 0-based body position i the
number i + 2. -/
def prunedBodyRows (g : Grid) : List TRow :=
  (prunedRows g).enum.map (fun p => TRow.mk p.2 (p.1 + 2))

/-- Week-column test for one column (src/app.py lines 67-68): some cell,
stripped, fully matches the week pattern. -/
def colHasWeek (rows : List (List String)) (j : Nat) : Bool :=
  rows.any (fun r => isWeekLabel (r.getD j ""))

/-- The scan of src/app.py lines 65-70: walk the column positions in order
and stop at the first that passes `colHasWeek`. (The scan also walks the
trailing `_sheet_row` column, whose cells are decimal integers and can never
match the week pattern, so it is omitted here.) -/
def detectScan (rows : List (List String)) : List Nat → Option Nat
  | [] => none
  | j :: js => if colHasWeek rows j then some j else detectScan rows js

/-- The detected week column of the grid: position in the pruned header. -/
def detectOf (g : Grid) : Option Nat :=
  detectScan (prunedRows g) (List.range (prunedHeader g).length)

/-- The header after the `WEEK` copy (src/app.py lines 75-76): when a week
column was detected and no column is named `WEEK`, `df[WEEK_COL] =
df[week_col_name]` appends a copy of the detected column under the name
`WEEK`; otherwise the header is unchanged. -/
def finalHeader (g : Grid) : List String :=
  match detectOf g with
  | none => prunedHeader g
  | some _ =>
    if "WEEK" ∈ prunedHeader g then prunedHeader g
    else prunedHeader g ++ ["WEEK"]

/-- The rows after the `WEEK` copy, still in body order (before the sort). -/
def preSortRows (g : Grid) : List TRow :=
  match detectOf g with
  | none => prunedBodyRows g
  | some j =>
    if "WEEK" ∈ prunedHeader g then prunedBodyRows g
    else (prunedBodyRows g).map (fun r => TRow.mk (r.cells ++ [r.cells.getD j ""]) r.sheetRow)

/-- Position of the column named `WEEK` (the sort reads `df[WEEK_COL]`). -/
def weekIdx (header : List String) : Nat := header.findIdx (· = "WEEK")

/-- The sort key of a row: `_start_date` (src/app.py line 85), i.e.
`parse_start_date` of the row's `WEEK` cell. -/
def startKey (wi : Nat) (r : TRow) : Date := parse_start_date (r.cells.getD wi "")

/-- Insertion step of the descending sort model: a row moves past exactly
the rows with a strictly greater key.  How it places a row among
equal-keyed ones is a model choice (it keeps them in input order, which is
what numpy's small-array insertion sort combined with pandas' descending
reverse/argsort/reverse does); no general theorem below relies on that
choice. -/
def insertDesc {α : Type} (key : α → Date) (a : α) : List α → List α
  | [] => [a]
  | b :: l => if Date.leB (key b) (key a) then a :: b :: l else b :: insertDesc key a l

/-- Model of `df.sort_values("_start_date", ascending=False)` (src/app.py
line 86).  pandas' default `kind='quicksort'` guarantees only a permutation
of the rows ordered by the key: tie order is documented as unspecified
(quicksort is not stable).  An executable model has to pick some order;
this one reproduces numpy's behaviour below its small-array insertion-sort
cutoff, which is the program's actual, deterministic behaviour on every
concrete grid evaluated in this file.  Every general theorem proved about
the sorted output states only tie-order-independent facts — that it is a
permutation, that it is ordered by the key descending, and consequences of
those — which hold for any faithful tie order; `reset_index(drop=True)`
only renumbers. -/
def sortDesc {α : Type} (key : α → Date) : List α → List α
  | [] => []
  | a :: l => insertDesc key a (sortDesc key l)

/-- `load_data` (src/app.py lines 28-88) on the raw grid: empty table for
fewer than two raw rows; otherwise fill the header, normalise and prune,
number the rows, detect the week column (returning unsorted without a `WEEK`
column when none is found), copy the detected column to `WEEK` when needed,
and sort by parsed start date descending. -/
def load_data (g : Grid) : Table :=
  if g.length < 2 then ⟨[], []⟩
  else
    match detectOf g with
    | none => ⟨prunedHeader g, prunedBodyRows g⟩
    | some _ =>
      ⟨finalHeader g, sortDesc (startKey (weekIdx (finalHeader g))) (preSortRows g)⟩

/-- `get_dept_columns` (src/app.py lines 90-91): the columns other than
`WEEK` whose name does not start with an underscore, in table order. -/
def get_dept_columns (t : Table) : List String :=
  t.header.filter (fun c => !(c = "WEEK") && !(startsWithL "_".data c.data))

/-- What `main` renders (src/app.py lines 198-206): a warning and no table
when the DataFrame is empty (the model's table is empty exactly when it has
no rows: a nonempty body always carries the `_sheet_row` column, so the
DataFrame has a column); an error message plus the column list and no table
when no `WEEK` column exists; the main view otherwise. -/
inductive MainView where
  | noData : MainView
  | noWeekCol : List String → MainView
  | table : Table → MainView
deriving DecidableEq, Repr

/-- The branch structure of `main` at src/app.py lines 198-206.  The column
list written with the error includes the synthetic `_sheet_row` column. -/
def main_view (t : Table) : MainView :=
  if t.rows.isEmpty then MainView.noData
  else if "WEEK" ∈ t.header then MainView.table t
  else MainView.noWeekCol (t.header ++ ["_sheet_row"])

/-! ## The worksheet (gspread boundary; src/app.py lines 102-124, 297-313) -/

/-- A worksheet as the claims need it: the grid of cell strings.  API
coordinates are 1-based. -/
abbrev Sheet := List (List String)

/-- `ws.row_values(1)`: the first row of the sheet. -/
def rowValues1 (s : Sheet) : List String := s.headD []

/-- `get_col_index` (src/app.py lines 102-107): position of the first header
cell equal to the name, 1-based, `None` when the name is absent. -/
def get_col_index (s : Sheet) (name : String) : Option Nat :=
  match (rowValues1 s).findIdx? (· = name) with
  | some i => some (i + 1)
  | none => none

/-- Write one cell of a row at 0-based position, extending with empty cells
as the spreadsheet does. -/
def setColAt : Nat → String → List String → List String
  | 0, v, [] => [v]
  | 0, v, _ :: xs => v :: xs
  | n + 1, v, [] => "" :: setColAt n v []
  | n + 1, v, x :: xs => x :: setColAt n v xs

/-- Write one row's cell at 0-based row position, extending with empty rows
as the spreadsheet does. -/
def setCellAt : Nat → Nat → String → Sheet → Sheet
  | 0, c, v, [] => [setColAt c v []]
  | 0, c, v, row :: rest => setColAt c v row :: rest
  | r + 1, c, v, [] => [] :: setCellAt r c v []
  | r + 1, c, v, row :: rest => row :: setCellAt r c v rest

/-- `ws.update_cell(row, col, value)`: 1-based coordinates. -/
def update_cell (s : Sheet) (r c : Nat) (v : String) : Sheet :=
  setCellAt (r - 1) (c - 1) v s

/-- Read one cell at 1-based coordinates; absent cells are empty strings. -/
def getCell (s : Sheet) (r c : Nat) : String :=
  (s.getD (r - 1) []).getD (c - 1) ""

/-- Outcome of the auto-save callback: the worksheet afterwards, whether the
cached table was invalidated (`load_data.clear()`), and whether the failure
warning was shown. -/
structure SaveResult where
  sheet : Sheet
  cacheCleared : Bool
  warned : Bool
deriving DecidableEq, Repr

/-- `save_cell` (src/app.py lines 109-124): resolve the column by name in
the current header; on failure warn and return with nothing written and the
cache untouched; on success write the one cell at (sheet_row, col_idx) and
clear the cached table.  `value` is the edit buffer
`st.session_state.get(key, "")`. -/
def save_cell (s : Sheet) (sheet_row : Nat) (col_name : String) (value : String) : SaveResult :=
  match get_col_index s col_name with
  | none => ⟨s, false, true⟩
  | some col_idx => ⟨update_cell s sheet_row col_idx value, true, false⟩

/-- Row insertion at a 1-based position, as `ws.insert_row(row, index=...)`:
the new row becomes row `index`. -/
def insertRowAt : Nat → List String → Sheet → Sheet
  | 0, row, s => row :: s
  | _ + 1, row, [] => [row]
  | n + 1, row, x :: xs => x :: insertRowAt n row xs

/-- `ws.insert_row(row, index)`. -/
def insert_row (s : Sheet) (index : Nat) (row : List String) : Sheet :=
  insertRowAt (index - 1) row s

/-- The `insertDimension` half of `ws.insert_cols(values, 1)`: one blank
column inserted before column 1.  This request on its own succeeds. -/
def insert_blank_col_first (s : Sheet) : Sheet := s.map (fun r => "" :: r)

/-- Outcome of the new-week button callback (src/app.py lines 297-313):
either the worksheet after a successful insertion, or the worksheet state
left behind when a gspread call raises and the rest of the callback never
runs. -/
inductive NewWeekResult where
  | ok : Sheet → NewWeekResult
  | apiError : Sheet → NewWeekResult
deriving DecidableEq, Repr

/-- The new-week insertion of `main` (src/app.py lines 297-313): read the
header and build `new_row = [""] * len(headers)`.  If a `WEEK` header
exists, put the label at its (first) position and insert the row at sheet
position 2.  Otherwise the code calls `ws.insert_cols([WEEK_COL], 1)` with
a flat list: gspread first issues the `insertDimension` request, so a blank
first column appears, and then sends the values update with body
`majorDimension=COLUMNS, values=["WEEK"]` — but the Sheets API requires
`values` to be a list of column lists and rejects the bare string where an
array of cells is due, so gspread raises an APIError; the re-read of the
header, the label assignment and the `insert_row` call after it never
execute.  The model returns the sheet state at which the exception
propagates out of the callback. -/
def add_new_week (s : Sheet) (label : String) : NewWeekResult :=
  let headers := rowValues1 s
  if "WEEK" ∈ headers then
    NewWeekResult.ok (insert_row s 2
      ((List.replicate headers.length "").set (headers.findIdx (· = "WEEK")) label))
  else
    NewWeekResult.apiError (insert_blank_col_first s)

/-! ## HTML escaping (src/app.py lines 125-131) -/

/-- `escape_html`: the empty string for `None`; otherwise replace `&` by
`&amp;`, then `<` by `&lt;`, then `>` by `&gt;`, then each newline by
`<br>`, in that order. -/
def escape_html : Option String → String
  | none => ""
  | some s =>
    ⟨replaceCharL '\n' "<br>".data
      (replaceCharL '>' "&gt;".data
        (replaceCharL '<' "&lt;".data
          (replaceCharL '&' "&amp;".data s.data)))⟩

/-- Joining parts with a separator list, to state what the newline
replacement produces. -/
def joinWith (sep : List Char) : List (List Char) → List Char
  | [] => []
  | [p] => p
  | p :: q :: ps => p ++ sep ++ joinWith sep (q :: ps)

/-! ## Order lemmas for dates -/

theorem leB_iff {a b : Date} : Date.leB a b = true ↔
    (a.year < b.year ∨ (a.year = b.year ∧
      (a.month < b.month ∨ (a.month = b.month ∧ a.day ≤ b.day)))) := by
  simp [Date.leB]

theorem leB_refl (a : Date) : Date.leB a a = true := by
  rw [leB_iff]; omega

theorem leB_total (a b : Date) : Date.leB a b = true ∨ Date.leB b a = true := by
  rw [leB_iff, leB_iff]; omega

theorem leB_trans {a b c : Date} (h1 : Date.leB a b = true) (h2 : Date.leB b c = true) :
    Date.leB a c = true := by
  rw [leB_iff] at *; omega

theorem leB_antisymm {a b : Date} (h1 : Date.leB a b = true) (h2 : Date.leB b a = true) :
    a = b := by
  obtain ⟨y1, m1, d1⟩ := a
  obtain ⟨y2, m2, d2⟩ := b
  simp only [leB_iff] at h1 h2
  simp only [Date.mk.injEq]
  omega

theorem leB_of_not_leB {a b : Date} (h : ¬ Date.leB a b = true) : Date.leB b a = true :=
  (leB_total a b).resolve_left h

/-! ## Lemmas about the stable descending sort -/

theorem perm_insertDesc {α : Type} (key : α → Date) (a : α) (l : List α) :
    (insertDesc key a l).Perm (a :: l) := by
  induction l with
  | nil => exact List.Perm.refl _
  | cons b t ih =>
    unfold insertDesc
    split
    · exact List.Perm.refl _
    · exact (ih.cons b).trans (List.Perm.swap a b t)

theorem perm_sortDesc {α : Type} (key : α → Date) (l : List α) :
    (sortDesc key l).Perm l := by
  induction l with
  | nil => exact List.Perm.refl _
  | cons a t ih => exact (perm_insertDesc key a (sortDesc key t)).trans (ih.cons a)

theorem mem_insertDesc {α : Type} {key : α → Date} {a x : α} {l : List α}
    (h : x ∈ insertDesc key a l) : x = a ∨ x ∈ l := by
  have := (perm_insertDesc key a l).mem_iff.mp h
  simpa using this

theorem pairwise_insertDesc {α : Type} (key : α → Date) (a : α) {l : List α}
    (h : l.Pairwise (fun x y => Date.leB (key y) (key x) = true)) :
    (insertDesc key a l).Pairwise (fun x y => Date.leB (key y) (key x) = true) := by
  induction l with
  | nil => simp [insertDesc]
  | cons b t ih =>
    rw [List.pairwise_cons] at h
    obtain ⟨hb, ht⟩ := h
    unfold insertDesc
    split
    case isTrue hle =>
      rw [List.pairwise_cons]
      refine ⟨?_, List.pairwise_cons.mpr ⟨hb, ht⟩⟩
      intro y hy
      rcases List.mem_cons.mp hy with rfl | hyt
      · exact hle
      · exact leB_trans (hb y hyt) hle
    case isFalse hnle =>
      rw [List.pairwise_cons]
      refine ⟨?_, ih ht⟩
      intro y hy
      rcases mem_insertDesc hy with rfl | hyt
      · exact leB_of_not_leB hnle
      · exact hb y hyt

theorem pairwise_sortDesc {α : Type} (key : α → Date) (l : List α) :
    (sortDesc key l).Pairwise (fun x y => Date.leB (key y) (key x) = true) := by
  induction l with
  | nil => simp [sortDesc]
  | cons a t ih => exact pairwise_insertDesc key a ih

/-! ## Lemmas about the loader pipeline -/

theorem length_normalizeRow (n : Nat) (r : List String) : (normalizeRow n r).length = n := by
  unfold normalizeRow
  split
  · simp
    omega
  · split
    · simp
      omega
    · omega

theorem length_selectIdxs (idxs : List Nat) (r : List String) :
    (selectIdxs idxs r).length = idxs.length := by
  simp [selectIdxs]

theorem length_prunedHeader (g : Grid) : (prunedHeader g).length = (keptOf g).length :=
  length_selectIdxs _ _

theorem length_prunedRows (g : Grid) : (prunedRows g).length = g.tail.length := by
  simp [prunedRows, normRows]

theorem length_prunedBodyRows (g : Grid) : (prunedBodyRows g).length = g.tail.length := by
  simp [prunedBodyRows, List.enum_length, length_prunedRows]

theorem sheetRow_prunedBodyRows (g : Grid) (i : Nat) (h : i < (prunedBodyRows g).length) :
    ((prunedBodyRows g)[i]).sheetRow = i + 2 := by
  simp [prunedBodyRows, List.getElem_map, List.getElem_enum]

theorem cells_length_of_mem_prunedBodyRows {g : Grid} {r : TRow} (h : r ∈ prunedBodyRows g) :
    r.cells.length = (keptOf g).length := by
  rw [List.mem_iff_getElem] at h
  obtain ⟨i, hi, rfl⟩ := h
  simp [prunedBodyRows, List.getElem_map, List.getElem_enum, prunedRows, selectIdxs]

theorem preSortRows_of_none {g : Grid} (hdet : detectOf g = none) :
    preSortRows g = prunedBodyRows g := by
  unfold preSortRows
  rw [hdet]

theorem finalHeader_of_none {g : Grid} (hdet : detectOf g = none) :
    finalHeader g = prunedHeader g := by
  unfold finalHeader
  rw [hdet]

theorem preSortRows_of_some_mem {g : Grid} {j : Nat} (hdet : detectOf g = some j)
    (hw : "WEEK" ∈ prunedHeader g) : preSortRows g = prunedBodyRows g := by
  unfold preSortRows
  rw [hdet]
  simp [hw]

theorem finalHeader_of_some_mem {g : Grid} {j : Nat} (hdet : detectOf g = some j)
    (hw : "WEEK" ∈ prunedHeader g) : finalHeader g = prunedHeader g := by
  unfold finalHeader
  rw [hdet]
  simp [hw]

theorem preSortRows_of_some_new {g : Grid} {j : Nat} (hdet : detectOf g = some j)
    (hw : "WEEK" ∉ prunedHeader g) :
    preSortRows g = (prunedBodyRows g).map
      (fun r => TRow.mk (r.cells ++ [r.cells.getD j ""]) r.sheetRow) := by
  unfold preSortRows
  rw [hdet]
  simp [hw]

theorem finalHeader_of_some_new {g : Grid} {j : Nat} (hdet : detectOf g = some j)
    (hw : "WEEK" ∉ prunedHeader g) : finalHeader g = prunedHeader g ++ ["WEEK"] := by
  unfold finalHeader
  rw [hdet]
  simp [hw]

theorem length_preSortRows (g : Grid) : (preSortRows g).length = g.tail.length := by
  unfold preSortRows
  cases detectOf g with
  | none => exact length_prunedBodyRows g
  | some j =>
    by_cases hw : "WEEK" ∈ prunedHeader g
    · simp [hw, length_prunedBodyRows]
    · simp [hw, length_prunedBodyRows]

theorem sheetRow_preSortRows (g : Grid) (i : Nat) (h : i < (preSortRows g).length) :
    ((preSortRows g)[i]).sheetRow = i + 2 := by
  have hpb : i < (prunedBodyRows g).length := by
    rw [length_prunedBodyRows]
    rw [length_preSortRows] at h
    exact h
  rcases hdet : detectOf g with _ | j
  · simp only [preSortRows_of_none hdet]
    exact sheetRow_prunedBodyRows g i hpb
  · by_cases hw : "WEEK" ∈ prunedHeader g
    · simp only [preSortRows_of_some_mem hdet hw]
      exact sheetRow_prunedBodyRows g i hpb
    · have := sheetRow_prunedBodyRows g i hpb
      simp only [preSortRows_of_some_new hdet hw, List.getElem_map]
      exact this

theorem cells_length_of_mem_preSortRows {g : Grid} {r : TRow} (h : r ∈ preSortRows g) :
    r.cells.length = (finalHeader g).length := by
  rcases hdet : detectOf g with _ | j
  · rw [preSortRows_of_none hdet] at h
    rw [finalHeader_of_none hdet, length_prunedHeader]
    exact cells_length_of_mem_prunedBodyRows h
  · by_cases hw : "WEEK" ∈ prunedHeader g
    · rw [preSortRows_of_some_mem hdet hw] at h
      rw [finalHeader_of_some_mem hdet hw, length_prunedHeader]
      exact cells_length_of_mem_prunedBodyRows h
    · rw [preSortRows_of_some_new hdet hw] at h
      rw [finalHeader_of_some_new hdet hw]
      rw [List.mem_map] at h
      obtain ⟨r0, hr0, rfl⟩ := h
      have := cells_length_of_mem_prunedBodyRows hr0
      simp [this, length_prunedHeader]

theorem load_data_of_short {g : Grid} (h2 : g.length < 2) : load_data g = ⟨[], []⟩ := by
  unfold load_data
  rw [if_pos h2]

theorem load_data_of_detect_none {g : Grid} (h2 : 2 ≤ g.length) (hdet : detectOf g = none) :
    load_data g = ⟨prunedHeader g, prunedBodyRows g⟩ := by
  unfold load_data
  rw [if_neg (by omega), hdet]

theorem load_data_of_detect_some {g : Grid} {j : Nat} (h2 : 2 ≤ g.length)
    (hdet : detectOf g = some j) :
    load_data g = ⟨finalHeader g,
      sortDesc (startKey (weekIdx (finalHeader g))) (preSortRows g)⟩ := by
  unfold load_data
  rw [if_neg (by omega), hdet]

theorem preSortRows_nil {g : Grid} (h : g.tail = []) : preSortRows g = [] := by
  have := length_preSortRows g
  rw [h] at this
  exact List.length_eq_zero.mp this

theorem perm_load_rows (g : Grid) : ((load_data g).rows).Perm (preSortRows g) := by
  by_cases h2 : g.length < 2
  · have htail : g.tail = [] := by
      cases g with
      | nil => rfl
      | cons a t =>
        simp only [List.length_cons] at h2
        show t = []
        exact List.length_eq_zero.mp (by omega)
    rw [load_data_of_short h2, preSortRows_nil htail]
  · rcases hdet : detectOf g with _ | j
    · rw [load_data_of_detect_none (by omega) hdet, preSortRows_of_none hdet]
    · rw [load_data_of_detect_some (by omega) hdet]
      exact perm_sortDesc _ _

/-! ## First-match characterisation of the week-column scan -/

theorem detectScan_range' {rows : List (List String)} :
    ∀ (c s : Nat) {j : Nat}, detectScan rows (List.range' s c) = some j →
      colHasWeek rows j = true ∧ s ≤ j ∧ ∀ k, s ≤ k → k < j → colHasWeek rows k = false := by
  intro c
  induction c with
  | zero => intro s j h; simp [detectScan] at h
  | succ c ih =>
    intro s j h
    rw [List.range'_succ] at h
    unfold detectScan at h
    split at h
    case isTrue ha =>
      injection h with h
      subst h
      exact ⟨ha, le_rfl, fun k hk1 hk2 => absurd (lt_of_le_of_lt hk1 hk2) (lt_irrefl _)⟩
    case isFalse ha =>
      obtain ⟨hj, hsj, hpre⟩ := ih (s + 1) h
      refine ⟨hj, by omega, fun k hk1 hk2 => ?_⟩
      rcases Nat.eq_or_lt_of_le hk1 with rfl | hk1'
      · exact Bool.eq_false_iff.mpr ha
      · exact hpre k hk1' hk2

theorem detectScan_mem {rows : List (List String)} :
    ∀ {js : List Nat} {j : Nat}, detectScan rows js = some j → j ∈ js := by
  intro js
  induction js with
  | nil => intro j h; simp [detectScan] at h
  | cons a t ih =>
    intro j h
    unfold detectScan at h
    split at h
    · injection h with h
      subst h
      exact List.mem_cons_self a t
    · exact List.mem_cons_of_mem a (ih h)

theorem detectOf_first {g : Grid} {j : Nat} (h : detectOf g = some j) :
    colHasWeek (prunedRows g) j = true ∧ j < (prunedHeader g).length ∧
      ∀ k, k < j → colHasWeek (prunedRows g) k = false := by
  unfold detectOf at h
  have hmem := detectScan_mem h
  rw [List.mem_range] at hmem
  rw [List.range_eq_range'] at h
  obtain ⟨hj, _, hpre⟩ := detectScan_range' _ 0 h
  exact ⟨hj, hmem, fun k hk => hpre k (Nat.zero_le k) hk⟩

/-! ## Bounds of the date parser and the sentinel -/

theorem parseMonth_bounds {l : List Char} {m : Nat} {r : List Char}
    (h : parseMonth l = some (m, r)) : 1 ≤ m ∧ m ≤ 12 := by
  unfold parseMonth at h
  split at h
  · exact absurd h (by simp)
  · split at h
    case isTrue hc =>
      simp only [Option.some.injEq, Prod.mk.injEq] at h
      obtain ⟨rfl, rfl⟩ := h
      simp only [inRange, Bool.and_eq_true, decide_eq_true_eq] at hc
      unfold dval
      omega
    case isFalse => exact absurd h (by simp)
  · split at h
    case isTrue hc =>
      simp only [Option.some.injEq, Prod.mk.injEq] at h
      obtain ⟨rfl, rfl⟩ := h
      simp only [inRange, Bool.and_eq_true, decide_eq_true_eq] at hc
      unfold dval
      omega
    case isFalse =>
      split at h
      case isTrue hc =>
        simp only [Option.some.injEq, Prod.mk.injEq] at h
        obtain ⟨rfl, rfl⟩ := h
        simp only [inRange, Bool.and_eq_true, decide_eq_true_eq] at hc
        unfold dval
        omega
      case isFalse =>
        split at h
        case isTrue hc =>
          simp only [Option.some.injEq, Prod.mk.injEq] at h
          obtain ⟨rfl, rfl⟩ := h
          simp only [inRange, Bool.and_eq_true, decide_eq_true_eq] at hc
          unfold dval
          omega
        case isFalse => exact absurd h (by simp)

theorem parseDay_pos {l : List Char} {d : Nat} (h : parseDay l = some d) : 1 ≤ d := by
  unfold parseDay at h
  split at h
  · exact absurd h (by simp)
  · split at h
    case isTrue hc =>
      simp only [Option.some.injEq] at h
      subst h
      simp only [inRange, Bool.and_eq_true, decide_eq_true_eq] at hc
      unfold dval
      omega
    case isFalse => exact absurd h (by simp)
  · split at h
    case isTrue hc =>
      split at h
      · simp only [Option.some.injEq] at h
        omega
      · exact absurd h (by simp)
    case isFalse =>
      split at h
      case isTrue hc =>
        split at h
        · simp only [Option.some.injEq] at h
          subst h
          simp only [Bool.and_eq_true, Bool.or_eq_true, decide_eq_true_eq, inRange] at hc
          have h1 : dval '1' = 1 := by decide
          have h2 : dval '2' = 2 := by decide
          rcases hc.1 with rfl | rfl <;> omega
        · exact absurd h (by simp)
      case isFalse =>
        split at h
        case isTrue hc =>
          split at h
          · simp only [Option.some.injEq] at h
            subst h
            simp only [inRange, Bool.and_eq_true, decide_eq_true_eq] at hc
            unfold dval
            omega
          · exact absurd h (by simp)
        case isFalse => exact absurd h (by simp)

theorem parseYMDL_bounds {l : List Char} {d : Date} (h : parseYMDL l = some d) :
    1 ≤ d.year ∧ 1 ≤ d.month ∧ d.month ≤ 12 ∧ 1 ≤ d.day := by
  unfold parseYMDL at h
  split at h
  case h_1 c1 c2 c3 c4 rest =>
    split at h
    case isTrue =>
      split at h
      case h_1 m rest2 hm =>
        split at h
        case h_1 rest3 =>
          split at h
          case h_1 dd hd =>
            dsimp only at h
            split at h
            case isTrue hcond =>
              simp only [Option.some.injEq] at h
              subst h
              simp only [Bool.and_eq_true, decide_eq_true_eq] at hcond
              obtain ⟨hm1, hm2⟩ := parseMonth_bounds hm
              have hd1 := parseDay_pos hd
              exact ⟨hcond.1, hm1, hm2, hd1⟩
            case isFalse => exact absurd h (by simp)
          case h_2 => exact absurd h (by simp)
        case h_2 => exact absurd h (by simp)
      case h_2 => exact absurd h (by simp)
    case isFalse => exact absurd h (by simp)
  case h_2 => exact absurd h (by simp)

theorem sentinel_leB_parse_start_date (s : String) :
    Date.leB ⟨1, 1, 1⟩ (parse_start_date s) = true := by
  unfold parse_start_date
  cases hp : parseStartDateOpt s with
  | none => exact leB_refl _
  | some d =>
    simp only [Option.getD_some]
    unfold parseStartDateOpt parseYMD at hp
    have hb := parseYMDL_bounds hp
    simp only [leB_iff]
    omega

theorem load_header {g : Grid} (h2 : 2 ≤ g.length) :
    (load_data g).header = finalHeader g := by
  rcases hdet : detectOf g with _ | j
  · rw [load_data_of_detect_none h2 hdet, finalHeader_of_none hdet]
  · rw [load_data_of_detect_some h2 hdet]

/-! ## Claims C1-C3 -/

/-- C1 (amended): for every raw grid with a header row and body rows, the
loader's table has one row per body row; every row's string-field count
equals the produced table's header width; and that header is the pruned
header, extended by the appended `WEEK` copy exactly when a week column was
detected and no pruned column is already named `WEEK`.  (The claim as
frozen says every row's field count equals the pruned header width; the
counterexample shows the `WEEK` copy makes it one wider in the common case
where the detected column has another name.) -/
theorem c1_loader_shape (hd : List String) (body : List (List String)) :
    (load_data (hd :: body)).rows.length = body.length
    ∧ (∀ r ∈ (load_data (hd :: body)).rows,
        r.cells.length = (load_data (hd :: body)).header.length)
    ∧ (body ≠ [] →
        (load_data (hd :: body)).header =
          if (detectOf (hd :: body)).isSome = true ∧ "WEEK" ∉ prunedHeader (hd :: body)
          then prunedHeader (hd :: body) ++ ["WEEK"]
          else prunedHeader (hd :: body)) := by
  cases body with
  | nil =>
    refine ⟨?_, ?_, fun hne => absurd rfl hne⟩
    · rw [load_data_of_short (by simp)]
      rfl
    · rw [load_data_of_short (by simp)]
      intro r hr
      exact absurd hr (by simp)
  | cons b t =>
    have h2 : 2 ≤ (hd :: b :: t).length := by simp
    refine ⟨?_, ?_, fun _ => ?_⟩
    · rw [(perm_load_rows _).length_eq, length_preSortRows]
      rfl
    · intro r hr
      rw [(perm_load_rows _).mem_iff] at hr
      rw [load_header h2]
      exact cells_length_of_mem_preSortRows hr
    · rw [load_header h2]
      rcases hdet : detectOf (hd :: b :: t) with _ | j
      · rw [finalHeader_of_none hdet]
        simp [hdet]
      · by_cases hw : "WEEK" ∈ prunedHeader (hd :: b :: t)
        · rw [finalHeader_of_some_mem hdet hw]
          simp [hdet, hw]
        · rw [finalHeader_of_some_new hdet hw]
          simp [hdet, hw]

/-- C1 witness: the theorem applied to a concrete grid. -/
theorem c1_loader_shape_witness :
    (load_data [["W", "A"], ["2025.01.06~2025.01.12", "x"]]).rows.length
        = [["2025.01.06~2025.01.12", "x"]].length
    ∧ (∀ r ∈ (load_data [["W", "A"], ["2025.01.06~2025.01.12", "x"]]).rows,
        r.cells.length = (load_data [["W", "A"], ["2025.01.06~2025.01.12", "x"]]).header.length)
    ∧ ([["2025.01.06~2025.01.12", "x"]] ≠ ([] : List (List String)) →
        (load_data [["W", "A"], ["2025.01.06~2025.01.12", "x"]]).header =
          if (detectOf [["W", "A"], ["2025.01.06~2025.01.12", "x"]]).isSome = true
              ∧ "WEEK" ∉ prunedHeader [["W", "A"], ["2025.01.06~2025.01.12", "x"]]
          then prunedHeader [["W", "A"], ["2025.01.06~2025.01.12", "x"]] ++ ["WEEK"]
          else prunedHeader [["W", "A"], ["2025.01.06~2025.01.12", "x"]]) :=
  c1_loader_shape ["W", "A"] [["2025.01.06~2025.01.12", "x"]]

/-- C1 counterexample: on the grid with header `["W", "A"]` and one body row
carrying a week range, the pruned header has width 2 but the loaded row has
3 string fields (the appended `WEEK` copy of column `W`), so the claim's
"every row's field count equals the pruned header width" fails. -/
theorem c1_loader_shape_counterexample :
    (prunedHeader [["W", "A"], ["2025.01.06~2025.01.12", "x"]]).length = 2
    ∧ ((load_data [["W", "A"], ["2025.01.06~2025.01.12", "x"]]).rows.map
        (fun r => r.cells.length)) = [3] := by
  exact ⟨by decide, by decide⟩

/-- C2: the pre-sort row list gives the row at 0-based body position i the
sheet row number i + 2; the loaded table's rows are a permutation of those
very rows (the sort moves whole rows, `sheetRow` values included), so every
output row still carries its original body position plus 2 whatever its
display position. -/
theorem c2_sheet_row_stable (g : Grid) :
    (∀ i, ∀ h : i < (preSortRows g).length, ((preSortRows g)[i]).sheetRow = i + 2)
    ∧ ((load_data g).rows).Perm (preSortRows g)
    ∧ (∀ r ∈ (load_data g).rows, ∃ i, ∃ h : i < (preSortRows g).length,
        (preSortRows g)[i] = r ∧ r.sheetRow = i + 2) := by
  refine ⟨fun i h => sheetRow_preSortRows g i h, perm_load_rows g, fun r hr => ?_⟩
  rw [(perm_load_rows g).mem_iff, List.mem_iff_getElem] at hr
  obtain ⟨i, hi, hget⟩ := hr
  exact ⟨i, hi, hget, by rw [← hget]; exact sheetRow_preSortRows g i hi⟩

/-- C2 witness: the theorem applied to a concrete grid, with the indexing
fact read off at position 0. -/
theorem c2_sheet_row_stable_witness :
    (0 < (preSortRows [["W"], ["2025.01.06~2025.01.12"]]).length)
    ∧ ((preSortRows [["W"], ["2025.01.06~2025.01.12"]]).getD 0 ⟨[], 0⟩).sheetRow = 2
    ∧ ((load_data [["W"], ["2025.01.06~2025.01.12"]]).rows).Perm
        (preSortRows [["W"], ["2025.01.06~2025.01.12"]]) := by
  have h0 : 0 < (preSortRows [["W"], ["2025.01.06~2025.01.12"]]).length := by decide
  refine ⟨h0, ?_, (c2_sheet_row_stable _).2.1⟩
  have := (c2_sheet_row_stable [["W"], ["2025.01.06~2025.01.12"]]).1 0 h0
  rw [List.getD_eq_getElem?_getD]
  rw [List.getElem?_eq_getElem h0]
  simpa using this

/-- C3 (amended): when a week column is detected, the loaded rows are a
permutation of the pre-sort rows (no row is dropped, unparsable weeks
included), ordered by parsed start date descending with unparsable week
strings carrying the sentinel minimum date ⟨1,1,1⟩; and after a row whose
week string is unparsable only rows whose key is the sentinel minimum
follow — so an unparsable row appears after every row with a strictly
later start date, but not necessarily after a parsable row whose start
date is itself 0001-01-01, which the counterexample exhibits.  Tie order
is not part of the statement: pandas' default quicksort leaves it
unspecified, so the claim's stability conjunct is not a guarantee of the
program.  All three conjuncts here are tie-order independent — they hold
of every permutation of the rows that is ordered by the key. -/
theorem c3_sort_correct (g : Grid) (j : Nat) (h2 : 2 ≤ g.length)
    (hdet : detectOf g = some j) :
    ((load_data g).rows).Perm (preSortRows g)
    ∧ ((load_data g).rows).Pairwise (fun a b =>
        Date.leB (startKey (weekIdx (finalHeader g)) b)
          (startKey (weekIdx (finalHeader g)) a) = true)
    ∧ ((load_data g).rows).Pairwise (fun a b =>
        parseStartDateOpt (a.cells.getD (weekIdx (finalHeader g)) "") = none →
        startKey (weekIdx (finalHeader g)) b = ⟨1, 1, 1⟩) := by
  rw [load_data_of_detect_some h2 hdet]
  refine ⟨perm_sortDesc _ _, pairwise_sortDesc _ _, ?_⟩
  refine (pairwise_sortDesc _ _).imp ?_
  intro a b hle hnone
  have ha : startKey (weekIdx (finalHeader g)) a = ⟨1, 1, 1⟩ := by
    unfold startKey parse_start_date
    rw [hnone]
    rfl
  rw [ha] at hle
  exact leB_antisymm hle (sentinel_leB_parse_start_date _)

/-- C3 witness: the theorem applied to a concrete two-row grid. -/
theorem c3_sort_correct_witness :
    (2 ≤ ([["W"], ["2025.01.06~2025.01.12"], ["2025.01.13~2025.01.19"]] : Grid).length)
    ∧ detectOf [["W"], ["2025.01.06~2025.01.12"], ["2025.01.13~2025.01.19"]] = some 0
    ∧ (((load_data [["W"], ["2025.01.06~2025.01.12"], ["2025.01.13~2025.01.19"]]).rows).Perm
        (preSortRows [["W"], ["2025.01.06~2025.01.12"], ["2025.01.13~2025.01.19"]])
      ∧ ((load_data [["W"], ["2025.01.06~2025.01.12"], ["2025.01.13~2025.01.19"]]).rows).Pairwise
          (fun a b =>
            Date.leB
              (startKey (weekIdx (finalHeader
                [["W"], ["2025.01.06~2025.01.12"], ["2025.01.13~2025.01.19"]])) b)
              (startKey (weekIdx (finalHeader
                [["W"], ["2025.01.06~2025.01.12"], ["2025.01.13~2025.01.19"]])) a) = true)
      ∧ ((load_data [["W"], ["2025.01.06~2025.01.12"], ["2025.01.13~2025.01.19"]]).rows).Pairwise
          (fun a b =>
            parseStartDateOpt (a.cells.getD (weekIdx (finalHeader
              [["W"], ["2025.01.06~2025.01.12"], ["2025.01.13~2025.01.19"]])) "") = none →
            startKey (weekIdx (finalHeader
              [["W"], ["2025.01.06~2025.01.12"], ["2025.01.13~2025.01.19"]])) b = ⟨1, 1, 1⟩)) :=
  ⟨by decide, by decide,
    c3_sort_correct [["W"], ["2025.01.06~2025.01.12"], ["2025.01.13~2025.01.19"]] 0
      (by decide) (by decide)⟩

/-- C3 counterexample: in the grid whose week column holds `"bad"` (body
position 0) and `"0001.01.01~0001.01.07"` (body position 1), the second row
parses to the start date 0001-01-01, which equals the unparsable sentinel
`datetime.min`, so the two rows tie.  On a two-row array numpy's argsort is
its small-array insertion sort, and pandas' descending path (reverse,
ascending argsort, reverse the indexer) then deterministically keeps the
tie in body order — the program's actual behaviour here, which the model
evaluates — so the loaded table shows the unparsable row first, before a
row with a parsable week string, refuting "every row whose week string is
unparsable appears after all rows with parsable week strings". -/
theorem c3_sort_correct_counterexample :
    ((load_data [["W"], ["bad"], ["0001.01.01~0001.01.07"]]).rows.map
        (fun r => r.cells.getD 0 "")) = ["bad", "0001.01.01~0001.01.07"]
    ∧ parseStartDateOpt "bad" = none
    ∧ (parseStartDateOpt "0001.01.01~0001.01.07").isSome = true := by
  exact ⟨by decide, by decide, by decide⟩

/-! ## Claims C4-C5 -/

/-- C4 (amended): the scan designates as week column the first column (in
table order) with at least one cell that, stripped, fully matches the week
pattern; and when no column matches AND the table has no column literally
named `WEEK`, the caller renders no table, only the message with the column
list.  (The claim as frozen asserts the error view whenever no column
matches; but `main` only tests for the presence of a column named `WEEK`,
so a grid with a literal `WEEK` header and no matching cell is rendered as
a table — the counterexample.) -/
theorem c4_week_detection (g : Grid) (h2 : 2 ≤ g.length) :
    (∀ j, detectOf g = some j →
        colHasWeek (prunedRows g) j = true
        ∧ ∀ k, k < j → colHasWeek (prunedRows g) k = false)
    ∧ (detectOf g = none → "WEEK" ∉ prunedHeader g →
        main_view (load_data g) = MainView.noWeekCol (prunedHeader g ++ ["_sheet_row"])) := by
  constructor
  · intro j hdet
    obtain ⟨ha, _, hc⟩ := detectOf_first hdet
    exact ⟨ha, hc⟩
  · intro hdet hw
    rw [load_data_of_detect_none h2 hdet]
    have hne : prunedBodyRows g ≠ [] := by
      intro hnil
      have hlen := length_prunedBodyRows g
      rw [hnil, List.length_tail] at hlen
      simp only [List.length_nil] at hlen
      omega
    simp [main_view, hne, hw]

/-- C4 witness: the theorem applied to a concrete grid without any week
pattern and without a `WEEK` header, where the error view is rendered. -/
theorem c4_week_detection_witness :
    (∀ j, detectOf [["A"], ["x"]] = some j →
        colHasWeek (prunedRows [["A"], ["x"]]) j = true
        ∧ ∀ k, k < j → colHasWeek (prunedRows [["A"], ["x"]]) k = false)
    ∧ (detectOf [["A"], ["x"]] = none → "WEEK" ∉ prunedHeader [["A"], ["x"]] →
        main_view (load_data [["A"], ["x"]])
          = MainView.noWeekCol (prunedHeader [["A"], ["x"]] ++ ["_sheet_row"])) :=
  c4_week_detection [["A"], ["x"]] (by decide)

/-- C4 counterexample: the grid has a column literally named `WEEK`, no cell
anywhere matches the week pattern, yet `main` proceeds to render the table
(instead of the "no week column found" view), because its test is only
`WEEK_COL not in df.columns`. -/
theorem c4_week_detection_counterexample :
    detectOf [["WEEK", "A"], ["hello", "x"]] = none
    ∧ main_view (load_data [["WEEK", "A"], ["hello", "x"]])
        = MainView.table (load_data [["WEEK", "A"], ["hello", "x"]]) := by
  exact ⟨by decide, by decide⟩

/-- C5: the week-range parser accepts `"2025.11.10~2025.11.23"` as the pair
(2025-11-10, 2025-11-23), rejects `"bad-input"`, and in general succeeds
exactly when the split on `~` yields two parts and both sides, stripped,
parse with `%Y.%m.%d`. -/
theorem c5_parse_week_range :
    parse_week_range "2025.11.10~2025.11.23" = some (⟨2025, 11, 10⟩, ⟨2025, 11, 23⟩)
    ∧ parse_week_range "bad-input" = none
    ∧ (∀ s : String, (parse_week_range s).isSome = true ↔
        ∃ a b, pySplit '~' s = [a, b]
          ∧ (parseYMD (pyStrip a)).isSome = true ∧ (parseYMD (pyStrip b)).isSome = true) := by
  refine ⟨by decide, by decide, fun s => ?_⟩
  constructor
  · intro h
    obtain ⟨p, hp⟩ := Option.isSome_iff_exists.mp h
    unfold parse_week_range at hp
    split at hp
    case h_1 a b hsplit =>
      split at hp
      case h_1 d1 d2 h1 h2 => exact ⟨a, b, hsplit, by rw [h1]; rfl, by rw [h2]; rfl⟩
      case h_2 => exact absurd hp (by simp)
    case h_2 => exact absurd hp (by simp)
  · rintro ⟨a, b, hsplit, hpa, hpb⟩
    obtain ⟨d1, hd1⟩ := Option.isSome_iff_exists.mp hpa
    obtain ⟨d2, hd2⟩ := Option.isSome_iff_exists.mp hpb
    unfold parse_week_range
    rw [hsplit]
    show (match parseYMD (pyStrip a), parseYMD (pyStrip b) with
      | some d1, some d2 => some (d1, d2)
      | _, _ => none).isSome = true
    rw [hd1, hd2]
    rfl

/-! ## Calendar arithmetic for C6 -/

theorem daysInMonth_pos (y m : Nat) : 1 ≤ daysInMonth y m := by
  unfold daysInMonth
  split
  · split <;> omega
  · split <;> omega

theorem validDate_nextDay {d : Date} (h : ValidDate d) : ValidDate (nextDay d) := by
  obtain ⟨hy, hm1, hm2, hd1, hd2⟩ := h
  unfold nextDay
  split
  case isTrue hlt =>
    refine ⟨?_, ?_, ?_, ?_, ?_⟩ <;> dsimp only <;> omega
  case isFalse hge =>
    split
    case isTrue hm12 =>
      refine ⟨?_, ?_, ?_, ?_, ?_⟩ <;> dsimp only <;>
        first
        | exact daysInMonth_pos _ _
        | omega
    case isFalse hm12 =>
      refine ⟨?_, ?_, ?_, ?_, ?_⟩ <;> dsimp only <;>
        first
        | exact daysInMonth_pos _ _
        | omega

theorem daysBeforeMonth_succ (y m : Nat) (hm : 1 ≤ m) :
    daysBeforeMonth y (m + 1) = daysBeforeMonth y m + daysInMonth y m := by
  cases m with
  | zero => omega
  | succ k => rfl

theorem daysBeforeMonth_13 (y : Nat) :
    daysBeforeMonth y 13 = 365 + leapBit y := by
  cases h : isLeap y <;> simp [leapBit, daysBeforeMonth, daysInMonth, h]

set_option maxHeartbeats 1000000 in
theorem leapCount_succ (y : Nat) (hy : 1 ≤ y) :
    leapCount y = leapCount (y - 1) + leapBit y := by
  unfold leapBit
  by_cases h : isLeap y = true
  · rw [if_pos h]
    have harith : y % 4 = 0 ∧ (y % 100 ≠ 0 ∨ y % 400 = 0) := by simpa [isLeap] using h
    unfold leapCount
    omega
  · rw [if_neg h]
    have harith : ¬(y % 4 = 0 ∧ (y % 100 ≠ 0 ∨ y % 400 = 0)) := by simpa [isLeap] using h
    push_neg at harith
    unfold leapCount
    omega

theorem dayNumber_nextDay {d : Date} (h : ValidDate d) :
    dayNumber (nextDay d) = dayNumber d + 1 := by
  obtain ⟨hy, hm1, hm2, hd1, hd2⟩ := h
  unfold nextDay
  split
  case isTrue hlt =>
    unfold dayNumber
    dsimp only
    omega
  case isFalse hge =>
    split
    case isTrue hm12 =>
      have hs := daysBeforeMonth_succ d.year d.month hm1
      unfold dayNumber
      dsimp only
      omega
    case isFalse hm12 =>
      have hm : d.month = 12 := by omega
      have h13 := daysBeforeMonth_13 d.year
      have hsucc := daysBeforeMonth_succ d.year 12 (by omega)
      norm_num at hsucc
      have hlc := leapCount_succ d.year hy
      have h31 : daysInMonth d.year 12 = 31 := by simp [daysInMonth]
      have hz : daysBeforeMonth (d.year + 1) 1 = 0 := rfl
      unfold dayNumber
      dsimp only
      rw [hm] at hd2 hge ⊢
      simp only [Nat.add_sub_cancel]
      omega

theorem dayNumber_addDays (n : Nat) {d : Date} (h : ValidDate d) :
    dayNumber (addDays n d) = dayNumber d + n ∧ ValidDate (addDays n d) := by
  induction n generalizing d with
  | zero => exact ⟨rfl, h⟩
  | succ n ih =>
    have h1 := validDate_nextDay h
    obtain ⟨ha, hb⟩ := ih h1
    rw [addDays]
    exact ⟨by rw [ha, dayNumber_nextDay h]; omega, hb⟩

/-- C6: for a valid end date and a span of at least one week (the code only
ever passes 1 or 2), the new label is the two formatted dates joined by
`~`, where the new start is the calendar day after `lastEnd` and the new
end lies exactly 7·weeksToAdd − 1 days after the new start — i.e.
7·weeksToAdd days after `lastEnd`, measured in day numbers. -/
theorem c6_next_week_range (lastEnd : Date) (w : Nat) (hv : ValidDate lastEnd)
    (hw : 1 ≤ w) :
    next_week_range lastEnd w
      = formatYMD (nextDay lastEnd) ++ "~" ++ formatYMD (addDays (7 * w - 1) (nextDay lastEnd))
    ∧ dayNumber (nextDay lastEnd) = dayNumber lastEnd + 1
    ∧ dayNumber (addDays (7 * w - 1) (nextDay lastEnd)) = dayNumber lastEnd + 7 * w := by
  refine ⟨rfl, dayNumber_nextDay hv, ?_⟩
  have hvn := validDate_nextDay hv
  obtain ⟨ha, _⟩ := dayNumber_addDays (7 * w - 1) hvn
  rw [ha, dayNumber_nextDay hv]
  omega

/-- C6 witness: from end 2025-11-23 with a two-week span the computed label
is `"2025.11.24~2025.12.07"`, and the theorem applies at that input. -/
theorem c6_next_week_range_witness :
    ValidDate ⟨2025, 11, 23⟩
    ∧ (next_week_range ⟨2025, 11, 23⟩ 2
        = formatYMD (nextDay ⟨2025, 11, 23⟩)
          ++ "~" ++ formatYMD (addDays (7 * 2 - 1) (nextDay ⟨2025, 11, 23⟩))
      ∧ dayNumber (nextDay ⟨2025, 11, 23⟩) = dayNumber ⟨2025, 11, 23⟩ + 1
      ∧ dayNumber (addDays (7 * 2 - 1) (nextDay ⟨2025, 11, 23⟩))
          = dayNumber ⟨2025, 11, 23⟩ + 7 * 2)
    ∧ next_week_range ⟨2025, 11, 23⟩ 2 = "2025.11.24~2025.12.07" :=
  ⟨by decide, c6_next_week_range ⟨2025, 11, 23⟩ 2 (by decide) (by decide), by decide⟩

/-! ## Claim C7: the auto-save write -/

theorem getD_setColAt (i : Nat) (v : String) (row : List String) (j : Nat) :
    (setColAt i v row).getD j "" = if j = i then v else row.getD j "" := by
  induction i generalizing row j with
  | zero =>
    cases row with
    | nil => cases j <;> simp [setColAt, List.getD]
    | cons x xs => cases j <;> simp [setColAt]
  | succ n ih =>
    cases row with
    | nil =>
      cases j with
      | zero => simp [setColAt]
      | succ k => simpa [setColAt] using ih [] k
    | cons x xs =>
      cases j with
      | zero => simp [setColAt]
      | succ k => simpa [setColAt] using ih xs k

theorem getD_setCellAt (r c : Nat) (v : String) (s : Sheet) (i j : Nat) :
    ((setCellAt r c v s).getD i []).getD j "" =
      if i = r ∧ j = c then v else (s.getD i []).getD j "" := by
  induction r generalizing s i with
  | zero =>
    cases s with
    | nil =>
      cases i with
      | zero => simpa [setCellAt] using getD_setColAt c v [] j
      | succ k => simp [setCellAt]
    | cons row rest =>
      cases i with
      | zero => simpa [setCellAt] using getD_setColAt c v row j
      | succ k => simp [setCellAt]
  | succ n ih =>
    cases s with
    | nil =>
      cases i with
      | zero => simp [setCellAt]
      | succ k => simpa [setCellAt] using ih [] k
    | cons row rest =>
      cases i with
      | zero => simp [setCellAt]
      | succ k => simpa [setCellAt] using ih rest k

theorem getCell_update_cell (s : Sheet) (r c r2 c2 : Nat) (v : String)
    (hr : 1 ≤ r) (hc : 1 ≤ c) (hr2 : 1 ≤ r2) (hc2 : 1 ≤ c2) :
    getCell (update_cell s r c v) r2 c2
      = if r2 = r ∧ c2 = c then v else getCell s r2 c2 := by
  unfold getCell update_cell
  rw [getD_setCellAt]
  by_cases h : r2 = r ∧ c2 = c
  · rw [if_pos (by omega), if_pos h]
  · rw [if_neg (by omega), if_neg h]

/-- C7: the auto-save resolves the department column by name in the current
sheet header; when the name is absent it warns, writes nothing (the sheet is
returned unchanged) and leaves the cache alone; when the name resolves to
the 1-based index ci, exactly the cell (sheet_row, ci) receives the buffered
value — every other cell reads back unchanged — no warning is shown, and
the cached table is invalidated afterwards. -/
theorem c7_save_cell (s : Sheet) (sheet_row : Nat) (col_name value : String)
    (hrow : 1 ≤ sheet_row) :
    (get_col_index s col_name = none →
      save_cell s sheet_row col_name value = ⟨s, false, true⟩)
    ∧ (∀ ci, get_col_index s col_name = some ci →
        1 ≤ ci
        ∧ (save_cell s sheet_row col_name value).warned = false
        ∧ (save_cell s sheet_row col_name value).cacheCleared = true
        ∧ ∀ r2 c2, 1 ≤ r2 → 1 ≤ c2 →
            getCell (save_cell s sheet_row col_name value).sheet r2 c2
              = if r2 = sheet_row ∧ c2 = ci then value else getCell s r2 c2) := by
  constructor
  · intro hnone
    unfold save_cell
    rw [hnone]
  · intro ci hsome
    have hci : 1 ≤ ci := by
      unfold get_col_index at hsome
      split at hsome
      · simp only [Option.some.injEq] at hsome
        omega
      · exact absurd hsome (by simp)
    refine ⟨hci, ?_, ?_, ?_⟩
    · unfold save_cell
      rw [hsome]
    · unfold save_cell
      rw [hsome]
    · intro r2 c2 h1 h2
      unfold save_cell
      rw [hsome]
      exact getCell_update_cell s sheet_row ci r2 c2 value hrow hci h1 h2

/-- C7 witness: on a concrete sheet, the write to the missing column "Nope"
warns and leaves the sheet unchanged, while the write to "DeptA" lands in
the one cell (2, 2). -/
theorem c7_save_cell_witness :
    get_col_index [["WEEK", "DeptA"], ["w", "old"]] "DeptA" = some 2
    ∧ save_cell [["WEEK", "DeptA"], ["w", "old"]] 2 "Nope" "new"
        = ⟨[["WEEK", "DeptA"], ["w", "old"]], false, true⟩
    ∧ getCell (save_cell [["WEEK", "DeptA"], ["w", "old"]] 2 "DeptA" "new").sheet 2 2 = "new" := by
  refine ⟨by decide, ?_, ?_⟩
  · exact (c7_save_cell [["WEEK", "DeptA"], ["w", "old"]] 2 "Nope" "new" (by decide)).1
      (by decide)
  · have h := ((c7_save_cell [["WEEK", "DeptA"], ["w", "old"]] 2 "DeptA" "new"
      (by decide)).2 2 (by decide)).2.2.2 2 2 (by decide) (by decide)
    rw [h]
    decide

/-! ## Claim C8: new-week insertion -/

theorem getD_set_replicate (n i : Nat) (v : String) (j : Nat) :
    ((List.replicate n "").set i v).getD j "" = if j = i ∧ j < n then v else "" := by
  rw [List.getD_eq_getElem?_getD, List.getElem?_set]
  by_cases hij : i = j
  · subst hij
    by_cases hn : i < n
    · simp [hn, List.length_replicate]
    · simp [hn, List.length_replicate]
  · have hcond : ¬(j = i ∧ j < n) := fun hx => hij hx.1.symm
    rw [if_neg hij, if_neg hcond, List.getElem?_replicate]
    split <;> rfl

/-- C8 (the code at the claim's two cases): with a `WEEK` header present,
the callback builds a blank row of the current header width whose only
nonblank cell is the label at the (first) `WEEK` position and inserts it as
the second sheet row — this half of the claim is what the code does.
Without a `WEEK` header — the claim's "a week column is first created"
clause — the malformed `insert_cols` call raises after inserting only a
blank first column: no cell ever receives the label, no `WEEK` header is
written, and no row is inserted, so that half of the claim fails on the
code (the Python slip is the flat list at src/app.py line 304). -/
theorem c8_add_new_week (r0 : List String) (rest : List (List String)) (label : String) :
    ("WEEK" ∈ r0 →
      add_new_week (r0 :: rest) label
        = NewWeekResult.ok
            (r0 :: ((List.replicate r0.length "").set (r0.findIdx (· = "WEEK")) label) :: rest)
      ∧ ((List.replicate r0.length "").set (r0.findIdx (· = "WEEK")) label).length = r0.length
      ∧ r0.findIdx (· = "WEEK") < r0.length
      ∧ (∀ j, ((List.replicate r0.length "").set (r0.findIdx (· = "WEEK")) label).getD j ""
          = if j = r0.findIdx (· = "WEEK") ∧ j < r0.length then label else ""))
    ∧ ("WEEK" ∉ r0 →
      add_new_week (r0 :: rest) label
        = NewWeekResult.apiError (("" :: r0) :: rest.map (fun r => "" :: r))) := by
  constructor
  · intro hin
    refine ⟨?_, by simp, ?_, fun j => getD_set_replicate _ _ _ _⟩
    · unfold add_new_week
      simp only [rowValues1, List.headD_cons]
      rw [if_pos hin]
      rfl
    · exact List.findIdx_lt_length.mpr ⟨"WEEK", hin, by simp⟩
  · intro hout
    unfold add_new_week
    simp only [rowValues1, List.headD_cons]
    rw [if_neg hout]
    rfl

/-- C8 witness: both branches of the theorem evaluated on concrete sheets:
with a `WEEK` header the labelled blank row becomes the second sheet row;
without one the callback raises, leaving only a blank inserted column and
no new row. -/
theorem c8_add_new_week_witness :
    ("WEEK" ∈ ["WEEK", "A"])
    ∧ add_new_week [["WEEK", "A"], ["r", "s"]] "L"
        = NewWeekResult.ok [["WEEK", "A"], ["L", ""], ["r", "s"]]
    ∧ ("WEEK" ∉ ["A", "B"])
    ∧ add_new_week [["A", "B"], ["r", "s"]] "L"
        = NewWeekResult.apiError [["", "A", "B"], ["", "r", "s"]] := by
  refine ⟨by decide, ?_, by decide, ?_⟩
  · rw [((c8_add_new_week ["WEEK", "A"] [["r", "s"]] "L").1 (by decide)).1]
    decide
  · rw [(c8_add_new_week ["A", "B"] [["r", "s"]] "L").2 (by decide)]
    decide

/-! ## Claim C9: HTML escaping -/

theorem mem_replaceCharL {c : Char} {r l : List Char} {x : Char}
    (h : x ∈ replaceCharL c r l) : x ∈ r ∨ (x ∈ l ∧ x ≠ c) := by
  induction l with
  | nil => simp [replaceCharL] at h
  | cons y ys ih =>
    unfold replaceCharL at h
    split at h
    case isTrue hy =>
      rcases List.mem_append.mp h with hr | ht
      · exact Or.inl hr
      · rcases ih ht with hr | ⟨hl, hne⟩
        · exact Or.inl hr
        · exact Or.inr ⟨List.mem_cons_of_mem _ hl, hne⟩
    case isFalse hy =>
      rcases List.mem_cons.mp h with rfl | ht
      · exact Or.inr ⟨List.mem_cons_self _ _, fun hxc => hy hxc⟩
      · rcases ih ht with hr | ⟨hl, hne⟩
        · exact Or.inl hr
        · exact Or.inr ⟨List.mem_cons_of_mem _ hl, hne⟩

theorem splitOnCharL_ne_nil (c : Char) (l : List Char) : splitOnCharL c l ≠ [] := by
  cases l with
  | nil => simp [splitOnCharL]
  | cons x xs =>
    unfold splitOnCharL
    split
    · simp
    · cases splitOnCharL c xs <;> simp

theorem replaceCharL_eq_joinWith (c : Char) (r : List Char) (l : List Char) :
    replaceCharL c r l = joinWith r (splitOnCharL c l) := by
  induction l with
  | nil => rfl
  | cons x xs ih =>
    unfold replaceCharL splitOnCharL
    split
    case isTrue hx =>
      rw [ih]
      cases hps : splitOnCharL c xs with
      | nil => exact absurd hps (splitOnCharL_ne_nil c xs)
      | cons p ps => simp [joinWith]
    case isFalse hx =>
      rw [ih]
      cases hps : splitOnCharL c xs with
      | nil => exact absurd hps (splitOnCharL_ne_nil c xs)
      | cons p ps =>
        cases ps with
        | nil => simp [joinWith]
        | cons q qs => simp [joinWith]

theorem mem_of_mem_splitOnCharL {c : Char} {l p : List Char} {x : Char}
    (hp : p ∈ splitOnCharL c l) (hx : x ∈ p) : x ∈ l := by
  induction l generalizing p with
  | nil =>
    simp [splitOnCharL] at hp
    subst hp
    simp at hx
  | cons y ys ih =>
    unfold splitOnCharL at hp
    split at hp
    case isTrue hy =>
      rcases List.mem_cons.mp hp with rfl | ht
      · simp at hx
      · exact List.mem_cons_of_mem _ (ih ht hx)
    case isFalse hy =>
      cases hps : splitOnCharL c ys with
      | nil => exact absurd hps (splitOnCharL_ne_nil c ys)
      | cons q qs =>
        rw [hps] at hp
        rcases List.mem_cons.mp hp with rfl | ht
        · rcases List.mem_cons.mp hx with rfl | hxq
          · exact List.mem_cons_self _ _
          · exact List.mem_cons_of_mem _
              (ih (by rw [hps]; exact List.mem_cons_self q qs) hxq)
        · exact List.mem_cons_of_mem _
            (ih (by rw [hps]; exact List.mem_cons_of_mem q ht) hx)

theorem no_angle_escaped (s : String) :
    '<' ∉ replaceCharL '>' "&gt;".data
        (replaceCharL '<' "&lt;".data (replaceCharL '&' "&amp;".data s.data))
    ∧ '>' ∉ replaceCharL '>' "&gt;".data
        (replaceCharL '<' "&lt;".data (replaceCharL '&' "&amp;".data s.data)) := by
  constructor
  · intro h
    rcases mem_replaceCharL h with hr | ⟨h2, _⟩
    · exact absurd hr (by decide)
    · rcases mem_replaceCharL h2 with hr | ⟨_, hne⟩
      · exact absurd hr (by decide)
      · exact hne rfl
  · intro h
    rcases mem_replaceCharL h with hr | ⟨_, hne⟩
    · exact absurd hr (by decide)
    · exact hne rfl

/-- C9: `escape_html` maps `None` to the empty string; and for any string,
after the `&`, `<`, `>` replacements (in that order) no angle bracket
remains, so the final newline step makes the output a join of
angle-bracket-free parts separated by the inserted `<br>` tags — every `<`
or `>` of the output belongs to an inserted `<br>`, and the rendered
content cannot inject markup. -/
theorem c9_escape_html :
    escape_html none = ""
    ∧ ∀ s : String, ∃ parts : List (List Char),
        (escape_html (some s)).data = joinWith "<br>".data parts
        ∧ ∀ p ∈ parts, '<' ∉ p ∧ '>' ∉ p := by
  refine ⟨rfl, fun s => ?_⟩
  refine ⟨splitOnCharL '\n'
    (replaceCharL '>' "&gt;".data
      (replaceCharL '<' "&lt;".data (replaceCharL '&' "&amp;".data s.data))), ?_, ?_⟩
  · exact replaceCharL_eq_joinWith '\n' "<br>".data _
  · intro p hp
    exact ⟨fun hx => (no_angle_escaped s).1 (mem_of_mem_splitOnCharL hp hx),
      fun hx => (no_angle_escaped s).2 (mem_of_mem_splitOnCharL hp hx)⟩

/-! ## Claim C10: department columns -/

/-- C10 (amended): `get_dept_columns` returns, in table order, exactly the
columns whose name is neither the literal `WEEK` nor underscore-prefixed;
when a week column is detected, no column named `WEEK` exists, and so the
`WEEK` copy is appended, the original detected column stays in the table
and is returned as a department exactly when its own name does not start
with an underscore.  (The claim as frozen asserts the copy is added and the
original returned whenever the detected name differs from `WEEK`; the
counterexample shows both parts need the extra conditions: with a
pre-existing `WEEK` column no copy is added, and an underscore-named week
column is filtered out of the department list.) -/
theorem c10_dept_columns (t : Table) (g : Grid) (j : Nat) (h2 : 2 ≤ g.length)
    (hdet : detectOf g = some j) (hw : "WEEK" ∉ prunedHeader g) :
    ((get_dept_columns t).Sublist t.header
      ∧ ∀ c, c ∈ get_dept_columns t ↔
          (c ∈ t.header ∧ c ≠ "WEEK" ∧ startsWithL "_".data c.data = false))
    ∧ ((load_data g).header = prunedHeader g ++ ["WEEK"]
      ∧ (prunedHeader g).getD j "" ∈ (load_data g).header
      ∧ (startsWithL "_".data ((prunedHeader g).getD j "").data = false →
          (prunedHeader g).getD j "" ∈ get_dept_columns (load_data g))) := by
  have hmemiff : ∀ (t2 : Table) (c : String), c ∈ get_dept_columns t2 ↔
      (c ∈ t2.header ∧ c ≠ "WEEK" ∧ startsWithL "_".data c.data = false) := by
    intro t2 c
    unfold get_dept_columns
    rw [List.mem_filter]
    simp
  have hj := (detectOf_first hdet).2.1
  have hname : (prunedHeader g).getD j "" ∈ prunedHeader g := by
    rw [List.getD_eq_getElem _ _ hj]
    exact List.getElem_mem hj
  have hheader : (load_data g).header = prunedHeader g ++ ["WEEK"] := by
    rw [load_header h2, finalHeader_of_some_new hdet hw]
  refine ⟨⟨List.filter_sublist _, hmemiff t⟩, hheader, ?_, ?_⟩
  · rw [hheader]
    exact List.mem_append.mpr (Or.inl hname)
  · intro hus
    rw [hmemiff (load_data g), hheader]
    refine ⟨List.mem_append.mpr (Or.inl hname), ?_, hus⟩
    intro hcw
    rw [hcw] at hname
    exact hw hname

/-- C10 witness: the theorem applied to the table loaded from a concrete
grid whose week column `W` is neither named `WEEK` nor underscore-prefixed,
so it comes back as a department column. -/
theorem c10_dept_columns_witness :
    (2 ≤ ([["W", "A"], ["2025.01.06~2025.01.12", "x"]] : Grid).length)
    ∧ detectOf [["W", "A"], ["2025.01.06~2025.01.12", "x"]] = some 0
    ∧ "WEEK" ∉ prunedHeader [["W", "A"], ["2025.01.06~2025.01.12", "x"]]
    ∧ (((get_dept_columns (load_data [["W", "A"], ["2025.01.06~2025.01.12", "x"]])).Sublist
          (load_data [["W", "A"], ["2025.01.06~2025.01.12", "x"]]).header
        ∧ ∀ c, c ∈ get_dept_columns (load_data [["W", "A"], ["2025.01.06~2025.01.12", "x"]]) ↔
            (c ∈ (load_data [["W", "A"], ["2025.01.06~2025.01.12", "x"]]).header
              ∧ c ≠ "WEEK" ∧ startsWithL "_".data c.data = false))
      ∧ ((load_data [["W", "A"], ["2025.01.06~2025.01.12", "x"]]).header
            = prunedHeader [["W", "A"], ["2025.01.06~2025.01.12", "x"]] ++ ["WEEK"]
        ∧ (prunedHeader [["W", "A"], ["2025.01.06~2025.01.12", "x"]]).getD 0 ""
            ∈ (load_data [["W", "A"], ["2025.01.06~2025.01.12", "x"]]).header
        ∧ (startsWithL "_".data
              ((prunedHeader [["W", "A"], ["2025.01.06~2025.01.12", "x"]]).getD 0 "").data
                = false →
            (prunedHeader [["W", "A"], ["2025.01.06~2025.01.12", "x"]]).getD 0 ""
              ∈ get_dept_columns (load_data [["W", "A"], ["2025.01.06~2025.01.12", "x"]])))) :=
  ⟨by decide, by decide, by decide,
    c10_dept_columns (load_data [["W", "A"], ["2025.01.06~2025.01.12", "x"]])
      [["W", "A"], ["2025.01.06~2025.01.12", "x"]] 0 (by decide) (by decide) (by decide)⟩

/-- C10 counterexample: the grid's detected week column is `_W` (underscore
name, with a second column literally named `WEEK` whose cells do not
match).  The detected name differs from `WEEK`, yet no `WEEK` copy is added
(the header keeps exactly its two columns) and the original `_W` column is
not returned by `get_dept_columns` (which here returns no columns at all),
refuting both halves of the claim's "in particular" sentence. -/
theorem c10_dept_columns_counterexample :
    detectOf [["_W", "WEEK"], ["2025.01.06~2025.01.12", "x"]] = some 0
    ∧ (prunedHeader [["_W", "WEEK"], ["2025.01.06~2025.01.12", "x"]]).getD 0 "" = "_W"
    ∧ (load_data [["_W", "WEEK"], ["2025.01.06~2025.01.12", "x"]]).header = ["_W", "WEEK"]
    ∧ get_dept_columns (load_data [["_W", "WEEK"], ["2025.01.06~2025.01.12", "x"]]) = [] := by
  exact ⟨by decide, by decide, by decide, by decide⟩

end WeeklyBoard
